import Mathlib

/-!
Shallow embedding of `src/main/src/scripts/web_scraper.py`.

The page fetcher (`crawl_single_page`'s interaction with the crawler) and the
sitemap source reader (`parse_sitemap`'s HTTP/XML work) are external
collaborators; they are abstracted as function parameters
(`fetch : String → Option Page`, `read_sitemap : String → List String`,
where `none` / `[]` stand for a failed fetch / failed sitemap read).
Everything else is translated from the Python source.

Python's `urllib.parse` helpers (`urldefrag`, `urlparse().netloc`,
`urlparse().path`) are modelled for absolute `scheme://host/path?query#frag`
URLs, matching urllib's documented behaviour on that shape: the fragment is
everything after the first `#`, the netloc is the part after the first `://`
up to the next `/`, `?` or `#`, and the path is what follows the netloc up to
the next `?` or `#`.
-/

/-- Model of the character list of a Python `str`; all string functions below
operate on `List Char` to mirror Python's per-character semantics. -/
abbrev Chars := List Char

/-- Scans a character list for the first occurrence of `://` and returns what
follows it (model of urllib's scheme separator search for standard URLs). -/
def afterSchemeSep : List Char → Option (List Char)
  | ':' :: '/' :: '/' :: rest => some rest
  | _ :: rest => afterSchemeSep rest
  | [] => none

/-- Characters that terminate the netloc component in `urlparse`. -/
def netlocStop (c : Char) : Bool := c == '/' || c == '?' || c == '#'

/-- Characters that terminate the path component in `urlparse`. -/
def pathStop (c : Char) : Bool := c == '?' || c == '#'

/-- Model of `urlparse(url).netloc` for absolute URLs. -/
def url_netloc (url : String) : String :=
  match afterSchemeSep url.toList with
  | some rest => String.mk (rest.takeWhile (fun c => !netlocStop c))
  | none => ""

/-- Model of `urlparse(url).path` for absolute URLs (and for scheme-less
strings, where urlparse puts everything before `?`/`#` into the path). -/
def url_path (url : String) : String :=
  match afterSchemeSep url.toList with
  | some rest => String.mk ((rest.dropWhile (fun c => !netlocStop c)).takeWhile (fun c => !pathStop c))
  | none => String.mk (url.toList.takeWhile (fun c => !pathStop c))

/-- Model of Python `s.endswith(suffix)`. -/
def pyEndsWith (s suffix : String) : Bool :=
  suffix.toList.isSuffixOf s.toList

/-- Model of Python `needle in haystack` on strings (contiguous substring
test). -/
def listContainsSub (needle : List Char) : List Char → Bool
  | [] => needle.isEmpty
  | c :: rest => needle.isPrefixOf (c :: rest) || listContainsSub needle rest

/-- `normalize_url` (web_scraper.py line 21): `urldefrag(url)[0]`, i.e. the URL
with everything from the first `#` on removed. -/
def normalize_url (url : String) : String :=
  String.mk (url.toList.takeWhile (fun c => c != '#'))

/-- `is_txt` (web_scraper.py line 17): whole-URL `endswith` checks. -/
def is_txt (url : String) : Bool :=
  pyEndsWith url ".txt" || pyEndsWith url "llms.txt" || pyEndsWith url "llms-full.txt"

/-- `is_sitemap` (web_scraper.py line 13): `url.endswith('sitemap.xml') or
'sitemap' in urlparse(url).path`. -/
def is_sitemap (url : String) : Bool :=
  pyEndsWith url "sitemap.xml" || listContainsSub "sitemap".toList (url_path url).toList

/-- `is_internal_link` (web_scraper.py line 25): netloc equality. -/
def is_internal_link (base_url link_url : String) : Bool :=
  url_netloc base_url == url_netloc link_url

/-- Outcome of a successful page fetch, as consumed by `crawl_recursive`:
`crawl_single_page` on success returns `url` (echoing its argument), a title,
the markdown content and the extracted outbound links. -/
structure Page where
  title : String
  content : String
  links : List String
deriving DecidableEq

/-- One entry of `crawl_recursive`'s `results` list (the spec's PageRecord). -/
structure PageRecord where
  url : String
  title : String
  content : String
  depth : Nat
deriving DecidableEq

/-- Observable trace of one `crawl_recursive` run: the returned `results`
list, plus two ghost lists — every URL passed to `crawl_single_page`
(`fetched`, in call order) and every `(url, depth)` pair appended to
`to_visit` after the seed (`pushed`, in append order). -/
structure CrawlTrace where
  results : List PageRecord
  fetched : List String
  pushed : List (String × Nat)
deriving DecidableEq

/-- The `while` loop of `crawl_recursive` (web_scraper.py lines 145-186),
indexed by fuel counting loop iterations; `none` means the fuel ran out
before the loop exited.  State arguments mirror the Python locals:
`to_visit` (FIFO queue of `(url, depth)`), `visited`, `pages_processed`,
and the accumulated trace. -/
def crawlLoopFuel (fetch : String → Option Page) (start_url : String)
    (max_depth max_pages : Int) (follow_internal_only : Bool) :
    Nat → List (String × Nat) → List String → Nat → CrawlTrace → Option CrawlTrace
  | 0, _, _, _, _ => none
  | _ + 1, [], _, _, acc => some acc
  | n + 1, (url, depth) :: rest, visited, pages, acc =>
    if (pages : Int) < max_pages then
      if url ∈ visited ∨ (depth : Int) > max_depth then
        crawlLoopFuel fetch start_url max_depth max_pages follow_internal_only
          n rest visited pages acc
      else
        match fetch url with
        | none =>
          crawlLoopFuel fetch start_url max_depth max_pages follow_internal_only
            n rest (url :: visited) (pages + 1)
            { acc with fetched := acc.fetched ++ [url] }
        | some pg =>
          let newLinks : List (String × Nat) :=
            if (depth : Int) < max_depth then
              ((pg.links.map normalize_url).filter (fun l =>
                !((url :: visited).contains l) &&
                  (!follow_internal_only || is_internal_link start_url l))).map
                (fun l => (l, depth + 1))
            else []
          crawlLoopFuel fetch start_url max_depth max_pages follow_internal_only
            n (rest ++ newLinks) (url :: visited) (pages + 1)
            { results := acc.results ++ [⟨url, pg.title, pg.content, depth⟩]
              fetched := acc.fetched ++ [url]
              pushed := acc.pushed ++ newLinks }
    else some acc

/-- Initial loop state of `crawl_recursive(crawler, start_url, options)`:
queue seeded with `(normalize_url(start_url), 0)`, empty visited set,
zero pages processed. -/
def crawl_recursiveFuel (fetch : String → Option Page) (start_url : String)
    (max_depth max_pages : Int) (follow_internal_only : Bool) (fuel : Nat) :
    Option CrawlTrace :=
  crawlLoopFuel fetch start_url max_depth max_pages follow_internal_only
    fuel [(normalize_url start_url, 0)] [] 0 ⟨[], [], []⟩

/-- The ten markdown characters stripped by `create_excerpt`
(web_scraper.py line 311); `Char.ofNat 96` is the backquote. -/
def pyStripChars : List Char := ['#', '*', '_', Char.ofNat 96, '[', ']', '(', ')', '>', '|']

/-- ASCII whitespace recognised by Python's `str.split()` with no arguments
(space, tab, newline, carriage return, vertical tab, form feed). -/
def pyIsSpace (c : Char) : Bool :=
  c == ' ' || c == '\t' || c == '\n' || c == '\r' || c == Char.ofNat 11 || c == Char.ofNat 12

/-- Model of Python `str.split()` (split on whitespace runs, dropping empty
pieces); `acc` holds the current word reversed. -/
def splitWordsAux : List Char → List Char → List (List Char)
  | [], acc => if acc.isEmpty then [] else [acc.reverse]
  | c :: rest, acc =>
    if pyIsSpace c then
      if acc.isEmpty then splitWordsAux rest []
      else acc.reverse :: splitWordsAux rest []
    else splitWordsAux rest (c :: acc)

/-- The cleaned, whitespace-collapsed text that `create_excerpt` builds before
truncation: markdown characters removed, then `' '.join(text.split())`. -/
def excerpt_text (content : String) : List Char :=
  List.intercalate [' '] (splitWordsAux (content.toList.filter (fun c => !pyStripChars.contains c)) [])

/-- Model of Python `s.rsplit(' ', 1)[0]`: everything before the last space,
or the whole string when it contains no space. -/
def pyRsplitLast (cs : List Char) : List Char :=
  if ' ' ∈ cs then ((cs.reverse.dropWhile (fun c => c != ' ')).drop 1).reverse else cs

/-- `create_excerpt` (web_scraper.py lines 307-320). -/
def create_excerpt (content : String) (max_length : Nat := 300) : String :=
  let text := excerpt_text content
  if text.length ≤ max_length then String.mk text
  else String.mk (pyRsplitLast (text.take max_length)) ++ "..."

/-- One page entry as consumed by `scrape_url`'s aggregation step
(`url`/`title`/`content`; the recursive mode's `depth` key is never read
there). -/
structure SPage where
  url : String
  title : String
  content : String
deriving DecidableEq

/-- Terminal JSON object of `scrape_url`: either the error shape carrying an
error message, or the success shape carrying title, content, excerpt, url and
the metadata fields pagesCount, mode and (for merged documents) pages. -/
inductive ScrapeOutput where
  | error (msg : String)
  | result (title content excerpt url : String) (pagesCount : Nat) (mode : String)
      (pages : Option (List (String × String)))
deriving DecidableEq

/-- Mode auto-detection of `scrape_url` (web_scraper.py lines 199-206). -/
def resolve_mode (url mode : String) : String :=
  if mode = "auto" then
    if is_txt url then "single"
    else if is_sitemap url then "sitemap"
    else "recursive"
  else mode

/-- The per-page header synthesized when combining multiple pages
(web_scraper.py line 279). -/
def page_header (p : SPage) : String :=
  "\n\n## " ++ p.title ++ "\n*Source: " ++ p.url ++ "*\n\n"

/-- Result aggregation of `scrape_url` (web_scraper.py lines 250-294):
zero pages → error object; one page → its title/content directly; several →
header-prefixed contents concatenated by the `for` loop, first page's title,
and a `pages` metadata list. -/
def aggregate (url mode : String) : List SPage → ScrapeOutput
  | [] => .error "No content could be extracted from the URL"
  | [page] => .result page.title page.content (create_excerpt page.content) url 1 mode none
  | page :: more =>
    let combined_content := (page :: more).foldl (fun acc p => acc ++ page_header p ++ p.content) ""
    .result page.title combined_content (create_excerpt combined_content) url
      (page :: more).length mode (some ((page :: more).map fun r => (r.url, r.title)))

/-- Model of the Python slice `l[:n]` for an `int` bound `n` (negative bounds
count from the end). -/
def pySliceTo (l : List α) (n : Int) : List α :=
  if 0 ≤ n then l.take n.toNat else l.take ((l.length + n).toNat)

/-- Observable outcome of one `scrape_url` invocation: the terminal output,
the `results` list it aggregated, and the ghost list of URLs handed to
`crawl_single_page` (`attempts`, in call order). -/
structure ScrapeOut where
  output : ScrapeOutput
  results : List SPage
  attempts : List String
deriving DecidableEq

/-- `scrape_url` (web_scraper.py lines 188-294), with the fetcher and the
sitemap reader abstracted and the recursive mode's loop fuel-indexed
(`none` only when the fuel runs out inside `crawl_recursive`). -/
def scrape_urlFuel (fetch : String → Option Page) (read_sitemap : String → List String)
    (fuel : Nat) (url mode : String) (max_depth max_pages : Int)
    (follow_internal_only : Bool) : Option ScrapeOut :=
  let m := resolve_mode url mode
  if m = "single" then
    match fetch url with
    | some pg => some ⟨aggregate url m [⟨url, pg.title, pg.content⟩], [⟨url, pg.title, pg.content⟩], [url]⟩
    | none => some ⟨aggregate url m [], [], [url]⟩
  else if m = "sitemap" then
    let slice := pySliceTo (read_sitemap url) max_pages
    let results := slice.filterMap (fun u => (fetch u).map (fun pg => (⟨u, pg.title, pg.content⟩ : SPage)))
    some ⟨aggregate url m results, results, slice⟩
  else if m = "recursive" then
    match crawl_recursiveFuel fetch url max_depth max_pages follow_internal_only fuel with
    | none => none
    | some tr =>
      let results := tr.results.map (fun r => (⟨r.url, r.title, r.content⟩ : SPage))
      some ⟨aggregate url m results, results, tr.fetched⟩
  else some ⟨aggregate url m [], [], []⟩

/-- The spec's description of the combined content (§4.6): the pages'
contents concatenated in list order, each preceded by its synthesized
header.  Stated independently of the source's `foldl` accumulation, to be
compared with it. -/
def combinedContentSpec (pages : List SPage) : String :=
  String.join (pages.map fun p => page_header p ++ p.content)

-- Scenario inputs -------------------------------------------------------

/-- Page A of the two-page cyclic site used in the spec's recursive-crawl
scenario. -/
def siteUrlA : String := "https://a.test/"

/-- Page B of the two-page cyclic site. -/
def siteUrlB : String := "https://a.test/b"

/-- Fetcher for the two-page site: A links to B and B links to A. -/
def twoSiteFetch : String → Option Page := fun u =>
  if u = siteUrlA then some ⟨"Title A", "Content A", [siteUrlB]⟩
  else if u = siteUrlB then some ⟨"Title B", "Content B", [siteUrlA]⟩
  else none

/-- Trace of the two-page crawl: both pages fetched once, B pushed once. -/
def twoSiteTrace : CrawlTrace :=
  ⟨[⟨siteUrlA, "Title A", "Content A", 0⟩, ⟨siteUrlB, "Title B", "Content B", 1⟩],
   [siteUrlA, siteUrlB], [(siteUrlB, 1)]⟩

/-- Sitemap reader used in the sitemap scenarios: three URLs, in order. -/
def siteReader : String → List String := fun _ =>
  ["https://x.test/p1", "https://x.test/p2", "https://x.test/p3"]

/-- Fetcher for the sitemap scenarios: every page succeeds. -/
def siteFetch : String → Option Page := fun u =>
  if u = "https://x.test/p1" then some ⟨"T1", "c1", []⟩
  else if u = "https://x.test/p2" then some ⟨"T2", "c2", []⟩
  else if u = "https://x.test/p3" then some ⟨"T3", "c3", []⟩
  else none

-- Helper lemmas ----------------------------------------------------------

/-- A Python `endswith` check with a suffix `a` also succeeds for every
suffix `b` of `a`. -/
theorem pyEndsWith_mono {u a b : String} (hab : b.toList <:+ a.toList)
    (h : pyEndsWith u a = true) : pyEndsWith u b = true := by
  unfold pyEndsWith at h ⊢
  rw [List.isSuffixOf_iff_suffix] at h ⊢
  exact hab.trans h

/-- `dropWhile` never lengthens a list. -/
theorem length_dropWhile_le' (p : Char → Bool) (l : List Char) :
    (l.dropWhile p).length ≤ l.length := by
  induction l with
  | nil => simp
  | cons c rest ih =>
    by_cases h : p c
    · rw [List.dropWhile_cons_of_pos h]
      exact Nat.le_trans ih (Nat.le_succ _)
    · rw [List.dropWhile_cons_of_neg h]

/-- `pyRsplitLast` never lengthens its input. -/
theorem length_pyRsplitLast_le (cs : List Char) :
    (pyRsplitLast cs).length ≤ cs.length := by
  unfold pyRsplitLast
  by_cases h : ' ' ∈ cs
  · rw [if_pos h]
    simp only [List.length_reverse]
    calc ((cs.reverse.dropWhile (fun c => c != ' ')).drop 1).length
        ≤ (cs.reverse.dropWhile (fun c => c != ' ')).length := by
          simp [List.length_drop]
      _ ≤ cs.reverse.length := length_dropWhile_le' _ _
      _ = cs.length := List.length_reverse _
  · rw [if_neg h]

/-- If a list contains a space, `dropWhile (· != ' ')` lands on that space. -/
theorem dropWhile_space_cons {l : List Char} (h : ' ' ∈ l) :
    ∃ t, l.dropWhile (fun c => c != ' ') = ' ' :: t := by
  induction l with
  | nil => cases h
  | cons c rest ih =>
    by_cases hc : c = ' '
    · subst hc
      exact ⟨rest, by rw [List.dropWhile_cons_of_neg (by simp)]⟩
    · have hmem : ' ' ∈ rest := by
        cases List.mem_cons.mp h with
        | inl he => exact absurd he.symm hc
        | inr hm => exact hm
      obtain ⟨t, ht⟩ := ih hmem
      refine ⟨t, ?_⟩
      rw [List.dropWhile_cons_of_pos (by simp [hc])]
      exact ht

-- C9 --------------------------------------------------------------------

/-- C9 counterexample: for `https://x.test/page?f=a.txt` the code's
`is_txt` returns `true` although the URL's path component `/page` ends with
none of `.txt`, `llms.txt`, `llms-full.txt` — the source checks the whole
URL string, not the path. -/
theorem is_txt_path_counterexample :
    is_txt "https://x.test/page?f=a.txt" = true ∧
    url_path "https://x.test/page?f=a.txt" = "/page" ∧
    pyEndsWith (url_path "https://x.test/page?f=a.txt") ".txt" = false ∧
    pyEndsWith (url_path "https://x.test/page?f=a.txt") "llms.txt" = false ∧
    pyEndsWith (url_path "https://x.test/page?f=a.txt") "llms-full.txt" = false := by
  refine ⟨by decide, by decide, by decide, by decide, by decide⟩

/-- C9 (amended): `is_txt u` is true iff the whole URL string `u` ends with
`.txt` (the `llms.txt` and `llms-full.txt` alternatives are subsumed by the
`.txt` check); the path component plays no role. -/
theorem is_txt_checks_whole_url (u : String) :
    is_txt u = pyEndsWith u ".txt" := by
  unfold is_txt
  cases h : pyEndsWith u ".txt" with
  | true => simp
  | false =>
    have h2 : pyEndsWith u "llms.txt" = false := by
      cases hh : pyEndsWith u "llms.txt" with
      | false => rfl
      | true => rw [pyEndsWith_mono (by decide) hh] at h; cases h
    have h3 : pyEndsWith u "llms-full.txt" = false := by
      cases hh : pyEndsWith u "llms-full.txt" with
      | false => rfl
      | true => rw [pyEndsWith_mono (by decide) hh] at h; cases h
    simp [h2, h3]

-- C8 --------------------------------------------------------------------

/-- C8 counterexample: with cleaned text `aaaa` (one four-character word) and
`maxLength = 3`, truncation occurs and `create_excerpt` returns `aaa...`,
cutting the word `aaaa` in the middle: there is no decomposition of the
truncated prefix at a word boundary. -/
theorem create_excerpt_midword_counterexample :
    ¬ (excerpt_text "aaaa").length ≤ 3 ∧
    create_excerpt "aaaa" 3 = "aaa..." ∧
    ¬ (∃ core tail, (excerpt_text "aaaa").take 3 = core ++ ' ' :: tail ∧
        create_excerpt "aaaa" 3 = String.mk core ++ "...") := by
  refine ⟨by decide, by rfl, ?_⟩
  rintro ⟨core, tail, heq, -⟩
  have hsp : ' ' ∈ (excerpt_text "aaaa").take 3 := by
    rw [heq]
    exact List.mem_append_right _ (List.mem_cons_self _ _)
  rw [show (excerpt_text "aaaa").take 3 = ['a', 'a', 'a'] from by decide] at hsp
  simp at hsp

/-- C8 (amended): `create_excerpt content maxLength` always has length at
most `maxLength + 3` (three for the `...` marker).  When truncation occurs
and the first `maxLength` characters of the cleaned text contain a space,
the excerpt backs off to the last word boundary in that prefix (the dropped
tail after the final space contains no further space) before appending the
ellipsis; when that prefix contains no space, the excerpt is the raw
`maxLength`-character prefix plus the ellipsis and may end mid-word. -/
theorem create_excerpt_length_and_boundary (content : String) (mx : Nat) :
    (create_excerpt content mx).length ≤ mx + 3 ∧
    (¬ (excerpt_text content).length ≤ mx →
      ' ' ∈ (excerpt_text content).take mx →
      ∃ core tail, (excerpt_text content).take mx = core ++ ' ' :: tail ∧
        ' ' ∉ tail ∧ create_excerpt content mx = String.mk core ++ "...") ∧
    (¬ (excerpt_text content).length ≤ mx →
      ' ' ∉ (excerpt_text content).take mx →
      create_excerpt content mx = String.mk ((excerpt_text content).take mx) ++ "...") := by
  refine ⟨?_, ?_, ?_⟩
  · unfold create_excerpt
    by_cases h : (excerpt_text content).length ≤ mx
    · rw [if_pos h]
      simp only [String.length_mk]
      exact Nat.le_trans h (Nat.le_add_right _ _)
    · rw [if_neg h]
      rw [String.length_append, String.length_mk]
      have h1 : (pyRsplitLast ((excerpt_text content).take mx)).length ≤ mx :=
        Nat.le_trans (length_pyRsplitLast_le _) (by simp [List.length_take])
      have h2 : ("..." : String).length = 3 := rfl
      omega
  · intro htr hsp
    set p := (excerpt_text content).take mx with hp
    have hrev : ' ' ∈ p.reverse := List.mem_reverse.mpr hsp
    obtain ⟨t, ht⟩ := dropWhile_space_cons hrev
    refine ⟨t.reverse, (p.reverse.takeWhile (fun c => c != ' ')).reverse, ?_, ?_, ?_⟩
    · conv_lhs => rw [← List.reverse_reverse p,
        ← List.takeWhile_append_dropWhile (p := fun c => c != ' ') (l := p.reverse)]
      rw [ht, List.reverse_append]
      simp
    · intro hmem
      have := List.mem_takeWhile_imp (List.mem_reverse.mp hmem)
      simp at this
    · unfold create_excerpt
      rw [if_neg htr]
      congr 1
      unfold pyRsplitLast
      rw [if_pos hsp, ht]
      simp
  · intro htr hsp
    unfold create_excerpt
    rw [if_neg htr]
    congr 2
    unfold pyRsplitLast
    rw [if_neg hsp]

/-- C8 witness: concrete truncating input `ab cd ef` with `maxLength = 5`
instantiating the amended theorem; the cut lands on the word boundary after
`ab` and the excerpt is `ab...`. -/
theorem create_excerpt_boundary_witness :
    (create_excerpt "ab cd ef" 5).length ≤ 5 + 3 ∧
    (∃ core tail, (excerpt_text "ab cd ef").take 5 = core ++ ' ' :: tail ∧
      ' ' ∉ tail ∧ create_excerpt "ab cd ef" 5 = String.mk core ++ "...") := by
  refine ⟨(create_excerpt_length_and_boundary "ab cd ef" 5).1, ?_⟩
  exact (create_excerpt_length_and_boundary "ab cd ef" 5).2.1 (by decide) (by decide)

-- Crawl loop invariants --------------------------------------------------

/-- Every record appended by the crawl loop passed the pop-time depth check,
so all result depths stay at most `max_depth`. -/
theorem crawl_depth_invariant (fetch : String → Option Page) (start_url : String)
    (max_depth max_pages : Int) (fio : Bool) :
    ∀ (n : Nat) (q : List (String × Nat)) (v : List String) (p : Nat)
      (acc out : CrawlTrace),
      crawlLoopFuel fetch start_url max_depth max_pages fio n q v p acc = some out →
      (∀ r ∈ acc.results, (r.depth : Int) ≤ max_depth) →
      ∀ r ∈ out.results, (r.depth : Int) ≤ max_depth := by
  intro n
  induction n with
  | zero =>
    intro q v p acc out h _
    simp [crawlLoopFuel] at h
  | succ n ih =>
    intro q v p acc out h hacc
    cases q with
    | nil =>
      simp only [crawlLoopFuel, Option.some.injEq] at h
      subst h
      exact hacc
    | cons hd tl =>
      obtain ⟨url, depth⟩ := hd
      simp only [crawlLoopFuel] at h
      split at h
      · split at h
        · exact ih _ _ _ _ _ h hacc
        · rename_i hskip
          split at h
          · exact ih _ _ _ _ _ h hacc
          · refine ih _ _ _ _ _ h ?_
            intro r hr
            rcases List.mem_append.mp hr with hmem | hmem
            · exact hacc r hmem
            · have hd : (depth : Int) ≤ max_depth := by
                push_neg at hskip
                exact hskip.2
              simp only [List.mem_singleton] at hmem
              subst hmem
              exact hd
      · cases h
        exact hacc

/-- The results list grows by at most one per processed page, and pages are
processed only while `pages_processed < max_pages`. -/
theorem crawl_count_invariant (fetch : String → Option Page) (start_url : String)
    (max_depth max_pages : Int) (fio : Bool) :
    ∀ (n : Nat) (q : List (String × Nat)) (v : List String) (p : Nat)
      (acc out : CrawlTrace),
      crawlLoopFuel fetch start_url max_depth max_pages fio n q v p acc = some out →
      out.results.length ≤ acc.results.length + (max_pages - p).toNat := by
  intro n
  induction n with
  | zero =>
    intro q v p acc out h
    simp [crawlLoopFuel] at h
  | succ n ih =>
    intro q v p acc out h
    cases q with
    | nil =>
      simp only [crawlLoopFuel, Option.some.injEq] at h
      subst h
      exact Nat.le_add_right _ _
    | cons hd tl =>
      obtain ⟨url, depth⟩ := hd
      simp only [crawlLoopFuel] at h
      split at h
      · rename_i hbudget
        split at h
        · exact ih _ _ _ _ _ h
        · split at h
          · have := ih _ _ _ _ _ h
            simp only at this
            omega
          · have := ih _ _ _ _ _ h
            simp only [List.length_append, List.length_singleton] at this
            omega
      · cases h
        exact Nat.le_add_right _ _

/-- Every URL handed to `crawl_single_page` is fresh: it is recorded in
`visited` at dequeue time and duplicates are skipped, so the fetched list
never repeats a URL. -/
theorem crawl_fetched_invariant (fetch : String → Option Page) (start_url : String)
    (max_depth max_pages : Int) (fio : Bool) :
    ∀ (n : Nat) (q : List (String × Nat)) (v : List String) (p : Nat)
      (acc out : CrawlTrace),
      crawlLoopFuel fetch start_url max_depth max_pages fio n q v p acc = some out →
      acc.fetched.Nodup → (∀ u ∈ acc.fetched, u ∈ v) →
      out.fetched.Nodup := by
  intro n
  induction n with
  | zero =>
    intro q v p acc out h _ _
    simp [crawlLoopFuel] at h
  | succ n ih =>
    intro q v p acc out h hnd hsub
    cases q with
    | nil =>
      simp only [crawlLoopFuel, Option.some.injEq] at h
      subst h
      exact hnd
    | cons hd tl =>
      obtain ⟨url, depth⟩ := hd
      simp only [crawlLoopFuel] at h
      split at h
      · split at h
        · exact ih _ _ _ _ _ h hnd hsub
        · rename_i hskip
          push_neg at hskip
          have hfresh : url ∉ acc.fetched := fun hmem => hskip.1 (hsub url hmem)
          have hnd' : (acc.fetched ++ [url]).Nodup := by
            simp [List.nodup_append, hnd, hfresh]
          have hsub' : ∀ u ∈ acc.fetched ++ [url], u ∈ url :: v := by
            intro u hu
            rcases List.mem_append.mp hu with hu | hu
            · exact List.mem_cons_of_mem _ (hsub u hu)
            · simp only [List.mem_singleton] at hu
              subst hu
              exact List.mem_cons_self _ _
          split at h
          · exact ih _ _ _ _ _ h hnd' hsub'
          · exact ih _ _ _ _ _ h hnd' hsub'
      · cases h
        exact hnd

/-- With `follow_internal_only = true`, every `(url, depth)` pair the loop
pushes passed the `is_internal_link` filter, so its netloc equals the start
URL's. -/
theorem crawl_pushed_invariant (fetch : String → Option Page) (start_url : String)
    (max_depth max_pages : Int) :
    ∀ (n : Nat) (q : List (String × Nat)) (v : List String) (p : Nat)
      (acc out : CrawlTrace),
      crawlLoopFuel fetch start_url max_depth max_pages true n q v p acc = some out →
      (∀ e ∈ acc.pushed, url_netloc e.1 = url_netloc start_url) →
      ∀ e ∈ out.pushed, url_netloc e.1 = url_netloc start_url := by
  intro n
  induction n with
  | zero =>
    intro q v p acc out h _
    simp [crawlLoopFuel] at h
  | succ n ih =>
    intro q v p acc out h hacc
    cases q with
    | nil =>
      simp only [crawlLoopFuel, Option.some.injEq] at h
      subst h
      exact hacc
    | cons hd tl =>
      obtain ⟨url, depth⟩ := hd
      simp only [crawlLoopFuel] at h
      split at h
      · split at h
        · exact ih _ _ _ _ _ h hacc
        · split at h
          · exact ih _ _ _ _ _ h hacc
          · refine ih _ _ _ _ _ h ?_
            intro e he
            rcases List.mem_append.mp he with he | he
            · exact hacc e he
            · rename_i pg _
              split at he
              · obtain ⟨l, hl, rfl⟩ := List.mem_map.mp he
                have hpred := List.of_mem_filter hl
                simp only [Bool.and_eq_true, Bool.not_eq_true', Bool.or_eq_true] at hpred
                have hint : is_internal_link start_url l = true := by
                  rcases hpred.2 with hfalse | hint
                  · simp at hfalse
                  · exact hint
                unfold is_internal_link at hint
                exact (eq_of_beq hint).symm
              · cases he
      · cases h
        exact hacc

-- C1 ---------------------------------------------------------------------

/-- C1 counterexample: with `maxPages = -1` (the options dict is arbitrary
JSON, so negative ints are admissible) the crawl returns zero PageRecords,
yet `0 ≤ maxPages` is false — the page-count bound of the claim fails as
stated. -/
theorem crawl_count_neg_maxPages_counterexample :
    crawl_recursiveFuel (fun _ => none) "https://a.test/" 3 (-1) true 1 =
      some ⟨[], [], []⟩ ∧
    ¬ (((CrawlTrace.mk [] [] []).results.length : Int) ≤ -1) :=
  ⟨by decide, by decide⟩

/-- C1 (amended): in every terminating recursive crawl, every PageRecord's
depth is at most `maxDepth`, and the number of PageRecords is at most
`max maxPages 0` — hence at most `maxPages` whenever `maxPages ≥ 0` (for
negative `maxPages` the loop body never runs but the record count `0` still
exceeds `maxPages`). -/
theorem crawl_depth_le_and_count_le_max (fetch : String → Option Page)
    (start_url : String) (max_depth max_pages : Int) (follow_internal_only : Bool)
    (fuel : Nat) (out : CrawlTrace)
    (h : crawl_recursiveFuel fetch start_url max_depth max_pages follow_internal_only fuel =
      some out) :
    (∀ r ∈ out.results, (r.depth : Int) ≤ max_depth) ∧
    ((out.results.length : Int) ≤ max max_pages 0) := by
  constructor
  · exact crawl_depth_invariant fetch start_url max_depth max_pages follow_internal_only
      fuel _ _ _ _ _ h (by simp)
  · have := crawl_count_invariant fetch start_url max_depth max_pages follow_internal_only
      fuel _ _ _ _ _ h
    simp only [List.length_nil, Nat.zero_add] at this
    omega

/-- C1 witness: the two-page crawl instantiates the amended bound with
`maxDepth = 5`, `maxPages = 10`. -/
theorem crawl_depth_le_and_count_le_max_witness :
    (∀ r ∈ twoSiteTrace.results, (r.depth : Int) ≤ 5) ∧
    ((twoSiteTrace.results.length : Int) ≤ max 10 0) :=
  crawl_depth_le_and_count_le_max twoSiteFetch siteUrlA 5 10 true 3 twoSiteTrace (by decide)

-- C2 ---------------------------------------------------------------------

/-- C2: in a single recursive crawl no normalized URL is fetched (passed to
the single-page crawl step) more than once: the fetched-URL trace has no
duplicates. -/
theorem crawl_fetched_nodup (fetch : String → Option Page) (start_url : String)
    (max_depth max_pages : Int) (follow_internal_only : Bool) (fuel : Nat)
    (out : CrawlTrace)
    (h : crawl_recursiveFuel fetch start_url max_depth max_pages follow_internal_only fuel =
      some out) :
    out.fetched.Nodup :=
  crawl_fetched_invariant fetch start_url max_depth max_pages follow_internal_only
    fuel _ _ _ _ _ h (by simp) (by simp)

/-- C2 witness: the two-page cyclic crawl fetches each URL exactly once. -/
theorem crawl_fetched_nodup_witness : twoSiteTrace.fetched.Nodup :=
  crawl_fetched_nodup twoSiteFetch siteUrlA 5 10 true 3 twoSiteTrace (by decide)

-- C4 ---------------------------------------------------------------------

/-- C4: with `followInternalOnly = true`, every `(url, depth)` pair pushed
onto the pending queue after the seed shares its network-location component
with the start URL. -/
theorem crawl_pushed_internal (fetch : String → Option Page) (start_url : String)
    (max_depth max_pages : Int) (fuel : Nat) (out : CrawlTrace)
    (h : crawl_recursiveFuel fetch start_url max_depth max_pages true fuel = some out) :
    ∀ e ∈ out.pushed, url_netloc e.1 = url_netloc start_url :=
  crawl_pushed_invariant fetch start_url max_depth max_pages fuel _ _ _ _ _ h (by simp)

/-- C4 witness: in the two-page crawl the only pushed pair is `(B, 1)`, and B
shares netloc `a.test` with the start URL A. -/
theorem crawl_pushed_internal_witness :
    url_netloc (siteUrlB, 1).1 = url_netloc siteUrlA :=
  crawl_pushed_internal twoSiteFetch siteUrlA 5 10 3 twoSiteTrace (by decide)
    (siteUrlB, 1) (by decide)

-- C3 ---------------------------------------------------------------------

/-- Termination measure argument: each loop iteration either increments
`pages_processed` (bounded by `max_pages`) or shrinks the queue, so some
finite fuel always suffices. -/
theorem crawl_terminates_aux (fetch : String → Option Page) (start_url : String)
    (max_depth max_pages : Int) (fio : Bool) :
    ∀ (k : Nat) (q : List (String × Nat)) (v : List String) (p : Nat) (acc : CrawlTrace),
      (max_pages - p).toNat ≤ k →
      ∃ n, (crawlLoopFuel fetch start_url max_depth max_pages fio n q v p acc).isSome := by
  intro k
  induction k with
  | zero =>
    intro q
    induction q with
    | nil =>
      intro v p acc _
      exact ⟨1, by simp [crawlLoopFuel]⟩
    | cons hd tl ihq =>
      intro v p acc hk
      obtain ⟨url, depth⟩ := hd
      by_cases hbudget : (p : Int) < max_pages
      · exact absurd hk (by omega)
      · exact ⟨1, by simp [crawlLoopFuel, hbudget]⟩
  | succ k ihk =>
    intro q
    induction q with
    | nil =>
      intro v p acc _
      exact ⟨1, by simp [crawlLoopFuel]⟩
    | cons hd tl ihq =>
      intro v p acc hk
      obtain ⟨url, depth⟩ := hd
      by_cases hbudget : (p : Int) < max_pages
      · by_cases hskip : url ∈ v ∨ (depth : Int) > max_depth
        · obtain ⟨n, hn⟩ := ihq v p acc hk
          refine ⟨n + 1, ?_⟩
          simpa [crawlLoopFuel, hbudget, hskip] using hn
        · cases hfetch : fetch url with
          | none =>
            obtain ⟨n, hn⟩ := ihk tl (url :: v) (p + 1)
              { acc with fetched := acc.fetched ++ [url] } (by omega)
            refine ⟨n + 1, ?_⟩
            simpa [crawlLoopFuel, hbudget, hskip, hfetch] using hn
          | some pg =>
            obtain ⟨n, hn⟩ := ihk
              (tl ++ (if (depth : Int) < max_depth then
                ((pg.links.map normalize_url).filter (fun l =>
                  !((url :: v).contains l) &&
                    (!fio || is_internal_link start_url l))).map
                  (fun l => (l, depth + 1))
                else []))
              (url :: v) (p + 1)
              { results := acc.results ++ [⟨url, pg.title, pg.content, depth⟩]
                fetched := acc.fetched ++ [url]
                pushed := acc.pushed ++ (if (depth : Int) < max_depth then
                  ((pg.links.map normalize_url).filter (fun l =>
                    !((url :: v).contains l) &&
                      (!fio || is_internal_link start_url l))).map
                    (fun l => (l, depth + 1))
                  else []) } (by omega)
            refine ⟨n + 1, ?_⟩
            simpa [crawlLoopFuel, hbudget, hskip, hfetch] using hn
      · exact ⟨1, by simp [crawlLoopFuel, hbudget]⟩

/-- Fuel monotonicity: a run that exits within `n` iterations returns the
same trace with any larger fuel. -/
theorem crawlLoopFuel_mono (fetch : String → Option Page) (start_url : String)
    (max_depth max_pages : Int) (fio : Bool) :
    ∀ (n : Nat) (q : List (String × Nat)) (v : List String) (p : Nat)
      (acc out : CrawlTrace),
      crawlLoopFuel fetch start_url max_depth max_pages fio n q v p acc = some out →
      crawlLoopFuel fetch start_url max_depth max_pages fio (n + 1) q v p acc = some out := by
  intro n
  induction n with
  | zero =>
    intro q v p acc out h
    simp [crawlLoopFuel] at h
  | succ n ih =>
    intro q v p acc out h
    cases q with
    | nil => simpa [crawlLoopFuel] using h
    | cons hd tl =>
      obtain ⟨url, depth⟩ := hd
      simp only [crawlLoopFuel] at h ⊢
      by_cases hbudget : (p : Int) < max_pages
      · rw [if_pos hbudget] at h ⊢
        by_cases hskip : url ∈ v ∨ (depth : Int) > max_depth
        · rw [if_pos hskip] at h ⊢
          exact ih _ _ _ _ _ h
        · rw [if_neg hskip] at h ⊢
          cases hfetch : fetch url with
          | none =>
            simp only [hfetch] at h ⊢
            exact ih _ _ _ _ _ h
          | some pg =>
            simp only [hfetch] at h ⊢
            exact ih _ _ _ _ _ h
      · rw [if_neg hbudget] at h ⊢
        exact h

/-- C3: the recursive crawl loop terminates for every start URL, every
`maxDepth`/`maxPages` and every fetcher behaviour (some finite fuel makes the
fuel-indexed loop exit normally); and the two-page cyclic site A ↔ B with
`maxDepth = 5`, `maxPages = 10` terminates — stably, for all sufficient
fuel — with exactly two PageRecords: A at depth 0 and B at depth 1. -/
theorem crawl_always_terminates_and_cycle_scenario :
    (∀ (fetch : String → Option Page) (start_url : String) (max_depth max_pages : Int)
      (follow_internal_only : Bool), ∃ n,
        (crawl_recursiveFuel fetch start_url max_depth max_pages follow_internal_only n).isSome) ∧
    (∀ m, 3 ≤ m →
      crawl_recursiveFuel twoSiteFetch siteUrlA 5 10 true m =
        some ⟨[⟨siteUrlA, "Title A", "Content A", 0⟩, ⟨siteUrlB, "Title B", "Content B", 1⟩],
              [siteUrlA, siteUrlB], [(siteUrlB, 1)]⟩) := by
  constructor
  · intro fetch start_url max_depth max_pages fio
    exact crawl_terminates_aux fetch start_url max_depth max_pages fio
      max_pages.toNat [(normalize_url start_url, 0)] [] 0 ⟨[], [], []⟩ (by omega)
  · intro m hm
    induction m with
    | zero => omega
    | succ m ih =>
      rcases Nat.lt_or_ge m 3 with hlt | hge
      · have hm2 : m = 2 := by omega
        subst hm2
        decide
      · exact crawlLoopFuel_mono twoSiteFetch siteUrlA 5 10 true m _ _ _ _ _ (ih hge)

/-- C3 witness: fuel 3 reaches the two-record outcome of the cyclic
scenario. -/
theorem crawl_cycle_scenario_witness :
    3 ≤ 3 ∧
    crawl_recursiveFuel twoSiteFetch siteUrlA 5 10 true 3 =
      some ⟨[⟨siteUrlA, "Title A", "Content A", 0⟩, ⟨siteUrlB, "Title B", "Content B", 1⟩],
            [siteUrlA, siteUrlB], [(siteUrlB, 1)]⟩ :=
  ⟨by decide, crawl_always_terminates_and_cycle_scenario.2 3 (by decide)⟩

-- scrape_url helpers -----------------------------------------------------

/-- In every terminating `scrape_url` invocation the terminal output is the
aggregation of the produced results list, under the resolved mode. -/
theorem scrape_output_agg (fetch : String → Option Page)
    (read_sitemap : String → List String) (fuel : Nat) (url mode : String)
    (max_depth max_pages : Int) (follow_internal_only : Bool) (out : ScrapeOut)
    (h : scrape_urlFuel fetch read_sitemap fuel url mode max_depth max_pages
      follow_internal_only = some out) :
    out.output = aggregate url (resolve_mode url mode) out.results := by
  simp only [scrape_urlFuel] at h
  split at h
  · split at h <;> (cases h; rfl)
  · split at h
    · cases h; rfl
    · split at h
      · split at h
        · cases h
        · cases h; rfl
      · cases h; rfl

/-- `String.join` distributes over cons. -/
theorem string_join_cons (x : String) (xs : List String) :
    String.join (x :: xs) = x ++ String.join xs := by
  apply String.ext
  simp [String.join_eq]

/-- The source's `for`-loop accumulation of the combined content equals the
spec-shaped concatenation of header-prefixed page contents. -/
theorem combined_foldl_eq_spec :
    ∀ (pages : List SPage) (s : String),
      pages.foldl (fun acc p => acc ++ page_header p ++ p.content) s =
        s ++ combinedContentSpec pages := by
  intro pages
  induction pages with
  | nil =>
    intro s
    simp [combinedContentSpec, String.join]
  | cons a t ih =>
    intro s
    simp only [List.foldl_cons, combinedContentSpec, List.map_cons]
    rw [ih, string_join_cons]
    show s ++ page_header a ++ a.content ++ String.join (t.map fun p => page_header p ++ p.content) = _
    simp [String.append_assoc, combinedContentSpec]

-- C5 ---------------------------------------------------------------------

/-- C5: whenever an invocation of `scrape_url` (any mode) produces zero
PageRecords, its terminal output is exactly the error object with message
`No content could be extracted from the URL`, never a success result. -/
theorem scrape_empty_results_error (fetch : String → Option Page)
    (read_sitemap : String → List String) (fuel : Nat) (url mode : String)
    (max_depth max_pages : Int) (follow_internal_only : Bool) (out : ScrapeOut)
    (h : scrape_urlFuel fetch read_sitemap fuel url mode max_depth max_pages
      follow_internal_only = some out)
    (hz : out.results = []) :
    out.output = ScrapeOutput.error "No content could be extracted from the URL" := by
  rw [scrape_output_agg fetch read_sitemap fuel url mode max_depth max_pages
    follow_internal_only out h, hz]
  rfl

/-- C5 witness: a single-mode invocation whose only fetch fails produces zero
results and the exact error object. -/
theorem scrape_empty_results_error_witness :
    scrape_urlFuel (fun _ => none) (fun _ => []) 1 "https://w.test/x" "single" 3 50 true =
      some ⟨ScrapeOutput.error "No content could be extracted from the URL", [],
            ["https://w.test/x"]⟩ ∧
    (ScrapeOut.mk (ScrapeOutput.error "No content could be extracted from the URL") []
        ["https://w.test/x"]).output =
      ScrapeOutput.error "No content could be extracted from the URL" :=
  ⟨by decide,
   scrape_empty_results_error (fun _ => none) (fun _ => []) 1 "https://w.test/x" "single"
     3 50 true _ (by decide) rfl⟩

-- C6 ---------------------------------------------------------------------

/-- C6: whenever more than one PageRecord is produced (any mode), the
aggregated result's content is the pages' contents concatenated in list
order, each preceded by its synthesized title/source header (n pages yield
n headers), its title is the first page's title, `pagesCount` equals the
number of pages, the excerpt is computed from the combined content, and
`pages` lists `(url, title)` for every merged page in the same order. -/
theorem scrape_multi_aggregation (fetch : String → Option Page)
    (read_sitemap : String → List String) (fuel : Nat) (url mode : String)
    (max_depth max_pages : Int) (follow_internal_only : Bool) (out : ScrapeOut)
    (a b : SPage) (l : List SPage)
    (h : scrape_urlFuel fetch read_sitemap fuel url mode max_depth max_pages
      follow_internal_only = some out)
    (hr : out.results = a :: b :: l) :
    out.output = ScrapeOutput.result a.title (combinedContentSpec (a :: b :: l))
      (create_excerpt (combinedContentSpec (a :: b :: l))) url (a :: b :: l).length
      (resolve_mode url mode) (some ((a :: b :: l).map fun r => (r.url, r.title))) := by
  rw [scrape_output_agg fetch read_sitemap fuel url mode max_depth max_pages
    follow_internal_only out h, hr]
  simp only [aggregate]
  have hc : (a :: b :: l).foldl (fun acc p => acc ++ page_header p ++ p.content) "" =
      combinedContentSpec (a :: b :: l) := by
    rw [combined_foldl_eq_spec]
    exact String.empty_append _
  rw [hc]

/-- C6 witness: a three-page sitemap crawl aggregates with three headers in
sitemap order, `pagesCount = 3`, the first page's title, and the full
`pages` metadata list. -/
theorem scrape_multi_aggregation_witness :
    (scrape_urlFuel siteFetch siteReader 1 "https://x.test/sitemap.xml" "sitemap" 3 50 true).map
        (fun s => (s.results, s.output)) =
      some ([⟨"https://x.test/p1", "T1", "c1"⟩, ⟨"https://x.test/p2", "T2", "c2"⟩,
             ⟨"https://x.test/p3", "T3", "c3"⟩],
        ScrapeOutput.result "T1"
          (combinedContentSpec [⟨"https://x.test/p1", "T1", "c1"⟩,
            ⟨"https://x.test/p2", "T2", "c2"⟩, ⟨"https://x.test/p3", "T3", "c3"⟩])
          (create_excerpt (combinedContentSpec [⟨"https://x.test/p1", "T1", "c1"⟩,
            ⟨"https://x.test/p2", "T2", "c2"⟩, ⟨"https://x.test/p3", "T3", "c3"⟩]))
          "https://x.test/sitemap.xml" 3
          (resolve_mode "https://x.test/sitemap.xml" "sitemap")
          (some [("https://x.test/p1", "T1"), ("https://x.test/p2", "T2"),
                 ("https://x.test/p3", "T3")])) := by
  cases hh : scrape_urlFuel siteFetch siteReader 1 "https://x.test/sitemap.xml" "sitemap" 3 50 true with
  | none =>
    have hs : (scrape_urlFuel siteFetch siteReader 1 "https://x.test/sitemap.xml" "sitemap"
        3 50 true).isSome = true := by decide
    rw [hh] at hs
    simp at hs
  | some o =>
    have hr : o.results = [⟨"https://x.test/p1", "T1", "c1"⟩,
        ⟨"https://x.test/p2", "T2", "c2"⟩, ⟨"https://x.test/p3", "T3", "c3"⟩] := by
      have h2 : (scrape_urlFuel siteFetch siteReader 1 "https://x.test/sitemap.xml" "sitemap"
          3 50 true).map (fun s => s.results) =
          some [⟨"https://x.test/p1", "T1", "c1"⟩, ⟨"https://x.test/p2", "T2", "c2"⟩,
                ⟨"https://x.test/p3", "T3", "c3"⟩] := by decide
      rw [hh] at h2
      simpa using h2
    have hout := scrape_multi_aggregation siteFetch siteReader 1 "https://x.test/sitemap.xml"
      "sitemap" 3 50 true o ⟨"https://x.test/p1", "T1", "c1"⟩ ⟨"https://x.test/p2", "T2", "c2"⟩
      [⟨"https://x.test/p3", "T3", "c3"⟩] hh hr
    simp only [Option.map_some']
    rw [hr, hout]
    rfl

-- C7 ---------------------------------------------------------------------

/-- C7: in sitemap mode (with a nonnegative page budget) the fetch attempts
are exactly the first `maxPages` URLs of the sitemap list, in the sitemap's
order. -/
theorem scrape_sitemap_attempts (fetch : String → Option Page)
    (read_sitemap : String → List String) (fuel : Nat) (url : String)
    (max_depth max_pages : Int) (follow_internal_only : Bool) (out : ScrapeOut)
    (h : scrape_urlFuel fetch read_sitemap fuel url "sitemap" max_depth max_pages
      follow_internal_only = some out)
    (hnn : 0 ≤ max_pages) :
    out.attempts = (read_sitemap url).take max_pages.toNat := by
  simp only [scrape_urlFuel] at h
  have hres : resolve_mode url "sitemap" = "sitemap" := rfl
  rw [hres] at h
  rw [if_neg (by decide : ¬("sitemap" : String) = "single"), if_pos rfl] at h
  cases h
  show pySliceTo (read_sitemap url) max_pages = _
  unfold pySliceTo
  rw [if_pos hnn]

/-- C7 witness: a sitemap declaring three URLs with `maxPages = 2` leads to
exactly two fetch attempts, for the first and second URL in order; the third
is never attempted. -/
theorem scrape_sitemap_attempts_witness :
    0 ≤ (2 : Int) ∧
    (scrape_urlFuel siteFetch siteReader 1 "https://x.test/sitemap.xml" "sitemap" 3 2 true).map
        (fun s => s.attempts) =
      some ((siteReader "https://x.test/sitemap.xml").take (2 : Int).toNat) := by
  refine ⟨by decide, ?_⟩
  cases hh : scrape_urlFuel siteFetch siteReader 1 "https://x.test/sitemap.xml" "sitemap" 3 2 true with
  | none =>
    have hs : (scrape_urlFuel siteFetch siteReader 1 "https://x.test/sitemap.xml" "sitemap"
        3 2 true).isSome = true := by decide
    rw [hh] at hs
    simp at hs
  | some o =>
    simp only [Option.map_some']
    rw [scrape_sitemap_attempts siteFetch siteReader 1 "https://x.test/sitemap.xml"
      3 2 true o hh (by decide)]

-- C10 --------------------------------------------------------------------

/-- C10: every success result of `scrape_url` reports a mode among
`single`, `sitemap`, `recursive` — never `auto` — and that mode is exactly
the statically resolved mode (auto-detection applied to `auto`, the caller's
mode otherwise). -/
theorem scrape_success_mode_resolved (fetch : String → Option Page)
    (read_sitemap : String → List String) (fuel : Nat) (url mode : String)
    (max_depth max_pages : Int) (follow_internal_only : Bool) (out : ScrapeOut)
    (h : scrape_urlFuel fetch read_sitemap fuel url mode max_depth max_pages
      follow_internal_only = some out) :
    ∀ t c e u n m pgs, out.output = ScrapeOutput.result t c e u n m pgs →
      (m = "single" ∨ m = "sitemap" ∨ m = "recursive") ∧ m = resolve_mode url mode := by
  intro t c e u n m pgs hres
  have hagg := scrape_output_agg fetch read_sitemap fuel url mode max_depth max_pages
    follow_internal_only out h
  have hm : m = resolve_mode url mode := by
    rw [hagg] at hres
    cases hrl : out.results with
    | nil =>
      rw [hrl] at hres
      exact absurd hres (by simp [aggregate])
    | cons a l2 =>
      cases l2 with
      | nil =>
        rw [hrl] at hres
        simp only [aggregate, ScrapeOutput.result.injEq] at hres
        obtain ⟨-, -, -, -, -, hm, -⟩ := hres
        exact hm.symm
      | cons b l =>
        rw [hrl] at hres
        simp only [aggregate, ScrapeOutput.result.injEq] at hres
        obtain ⟨-, -, -, -, -, hm, -⟩ := hres
        exact hm.symm
  refine ⟨?_, hm⟩
  subst hm
  by_cases h1 : resolve_mode url mode = "single"
  · exact Or.inl h1
  by_cases h2 : resolve_mode url mode = "sitemap"
  · exact Or.inr (Or.inl h2)
  by_cases h3 : resolve_mode url mode = "recursive"
  · exact Or.inr (Or.inr h3)
  exfalso
  simp only [scrape_urlFuel] at h
  rw [if_neg h1, if_neg h2, if_neg h3] at h
  cases h
  simp [aggregate] at hres

/-- C10 witness: an `auto` invocation on an `llms.txt` URL resolves to and
reports mode `single` in its success result. -/
theorem scrape_success_mode_resolved_witness :
    scrape_urlFuel (fun _ => some ⟨"T", "C", []⟩) (fun _ => []) 1 "https://x.test/llms.txt"
        "auto" 3 50 true =
      some ⟨ScrapeOutput.result "T" "C" (create_excerpt "C") "https://x.test/llms.txt" 1
              "single" none,
            [⟨"https://x.test/llms.txt", "T", "C"⟩], ["https://x.test/llms.txt"]⟩ ∧
    ("single" = "single" ∨ "single" = "sitemap" ∨ "single" = "recursive") ∧
    ("single" : String) = resolve_mode "https://x.test/llms.txt" "auto" := by
  refine ⟨by decide, ?_⟩
  exact scrape_success_mode_resolved (fun _ => some ⟨"T", "C", []⟩) (fun _ => []) 1
    "https://x.test/llms.txt" "auto" 3 50 true
    ⟨ScrapeOutput.result "T" "C" (create_excerpt "C") "https://x.test/llms.txt" 1 "single" none,
     [⟨"https://x.test/llms.txt", "T", "C"⟩], ["https://x.test/llms.txt"]⟩
    (by decide) "T" "C" (create_excerpt "C") "https://x.test/llms.txt" 1 "single" none rfl
